import Mathlib

/-!
Verification of the admission / scoring / deduplication / selection pipeline
of `scripts/refresh.py` (repository vcarciu/vesti-bune), as a shallow
embedding in Lean 4.

Modelling conventions:
* Python `str` is modelled by Lean `String` (a list of Unicode scalar values).
* Python's `str.lower`, `unicodedata.normalize("NFKD", ·)` and
  `unicodedata.combining` consult the Unicode character database; they are
  modelled here by explicit finite tables (`pyLower`, `nfkdChar`,
  `isCombiningMark`) that reproduce the Unicode data for every character
  occurring in this development (ASCII, the Romanian diacritics, and the few
  extra characters used by the theorems); characters outside the tables are
  treated as case-stable and decomposition-free.
* Python's regex `\s` is modelled for the six ASCII whitespace characters
  (`pyIsSpace`), which are the whitespace characters occurring here.
* Machine integers do not occur: all Python ints in the modelled code are
  small and unbounded (`Int`/`Nat`).
-/

/-- The whitespace test of Python's regex `\s` (and of `str.strip`),
restricted to the six ASCII whitespace characters. -/
def pyIsSpace (c : Char) : Bool :=
  c = ' ' ∨ c = '\t' ∨ c = '\n' ∨ c = '\r' ∨ c = Char.ofNat 11 ∨ c = Char.ofNat 12

/-- Python `str.lower`, character-wise: the ASCII range plus the simple
lowercase mappings of the non-ASCII uppercase letters occurring in this
development.  All other characters occurring here are lowercase-stable. -/
def pyLower (c : Char) : Char :=
  if 'A' ≤ c ∧ c ≤ 'Z' then Char.ofNat (c.toNat + 32)
  else if c = 'Ă' then 'ă'
  else if c = 'Â' then 'â'
  else if c = 'Î' then 'î'
  else if c = 'Ș' then 'ș'
  else if c = 'Ț' then 'ț'
  else if c = 'Ş' then 'ş'
  else if c = 'Ţ' then 'ţ'
  else if c = 'É' then 'é'
  else if c = 'Æ' then 'æ'
  else if c = 'Ä' then 'ä'
  else c

/-- Python `str.lower` on a whole string. -/
def pyLowerStr (s : String) : String :=
  ⟨s.data.map pyLower⟩

/-- COMBINING BREVE (U+0306). -/
def breveMark : Char := Char.ofNat 0x306

/-- COMBINING CIRCUMFLEX ACCENT (U+0302). -/
def circMark : Char := Char.ofNat 0x302

/-- COMBINING COMMA BELOW (U+0326). -/
def commaBelowMark : Char := Char.ofNat 0x326

/-- COMBINING CEDILLA (U+0327). -/
def cedillaMark : Char := Char.ofNat 0x327

/-- COMBINING ACUTE ACCENT (U+0301). -/
def acuteMark : Char := Char.ofNat 0x301

/-- COMBINING DIAERESIS (U+0308). -/
def diaeresisMark : Char := Char.ofNat 0x308

/-- `unicodedata.normalize("NFKD", ·)`, character-wise: the canonical /
compatibility decompositions of the characters occurring in this
development.  Characters not listed decompose to themselves.  `№` (U+2116)
carries its real compatibility decomposition `<compat> N o`. -/
def nfkdChar (c : Char) : List Char :=
  if c = 'ă' then ['a', breveMark]
  else if c = 'â' then ['a', circMark]
  else if c = 'î' then ['i', circMark]
  else if c = 'ș' then ['s', commaBelowMark]
  else if c = 'ț' then ['t', commaBelowMark]
  else if c = 'ş' then ['s', cedillaMark]
  else if c = 'ţ' then ['t', cedillaMark]
  else if c = 'é' then ['e', acuteMark]
  else if c = 'ä' then ['a', diaeresisMark]
  else if c = '№' then ['N', 'o']
  else [c]

/-- `unicodedata.combining(c) != 0`, restricted to the block of combining
diacritical marks (U+0300–U+036F) — the only combining characters produced
by the decompositions above. -/
def isCombiningMark (c : Char) : Bool :=
  decide (0x300 ≤ c.toNat ∧ c.toNat ≤ 0x36F)

/-- One step of `re.sub(r"\s+", " ", ·)`: scan the characters, replacing
every maximal run of whitespace by a single space.  The flag records whether
the scanner is inside a whitespace run whose single space was already
emitted. -/
def squashAux : Bool → List Char → List Char
  | _, [] => []
  | inRun, c :: cs =>
    if pyIsSpace c then
      if inRun then squashAux true cs else ' ' :: squashAux true cs
    else c :: squashAux false cs

/-- `re.sub(r"\s+", " ", ·)` on a character list. -/
def squashSpaces (l : List Char) : List Char :=
  squashAux false l

/-- Remove trailing whitespace characters. -/
def dropTrailWs : List Char → List Char
  | [] => []
  | c :: cs =>
    match dropTrailWs cs with
    | [] => if pyIsSpace c then [] else [c]
    | r => c :: r

/-- Python `str.strip()` on a character list: drop leading and trailing
whitespace. -/
def stripChars (l : List Char) : List Char :=
  dropTrailWs (l.dropWhile pyIsSpace)

/-- Python `str.strip()` on a string. -/
def pyStrip (s : String) : String :=
  ⟨stripChars s.data⟩

/-- `normalize_text` from `scripts/refresh.py` (lines 46–51):
lowercase, NFKD-decompose, drop combining marks, collapse whitespace runs
to a single space, and strip. -/
def normalize_text (s : String) : String :=
  ⟨stripChars (squashSpaces
    (((s.data.map pyLower).flatMap nfkdChar).filter (fun c => !(isCombiningMark c))))⟩

/-- Does the pattern occur at the head of the list? -/
def startsWithChars : List Char → List Char → Bool
  | [], _ => true
  | _ :: _, [] => false
  | a :: as, b :: bs => a = b && startsWithChars as bs

/-- Python's substring test `needle in hay` on character lists. -/
def hasSub (needle : List Char) : List Char → Bool
  | [] => startsWithChars needle []
  | c :: t => startsWithChars needle (c :: t) || hasSub needle t

/-- Python `kw in text` on strings. -/
def containsKw (text kw : String) : Bool :=
  hasSub kw.data text.data

/-- `NEGATIVE_KEYWORDS` from `scripts/refresh.py` (lines 103–119), the
hard-block phrase list, transcribed verbatim (the file literally contains
the double-encoded sequences such as `"rƒÉzboi"`). -/
def NEGATIVE_KEYWORDS : List String := [
  "rƒÉzboi","razboi","invaz","atac","bombard","rachet","dron","front","armatƒÉ","armata",
  "solda","nato","ucrain","rusi","rusia","moscov","kiev","zelensk","putin",
  "israel","gaza","palestin","hamas","iran","sir","yemen",
  "crim","omor","ucis","√Ænjungh","injungh","√Æmpu»ôc","impusc","violent","agresi",
  "viol","rƒÉpit","rapit","t√¢lhƒÉr","talhar","jaf","furt","drog",
  "arest","re»õinut","retinut","perchezi","anchet","procuror","parchet","dna","diicot",
  "dosar","inculpat","trimis √Æn judecatƒÉ","trimis in judecata","condamnat","sentin",
  "accident","colizi","exploz","incend","inunda","cutremur","dezastru","uragan","tornad",
  "victim","mor»õi","morti","rƒÉni»õi","raniti",
  "corup","mitƒÉ","mita","»ôpag","spag","fraud","scandal",
  "faliment","colaps","criz","scumpir","infla","reces","»ôomaj","somaj"]

/-- `SOFT_NEGATIVE` from `scripts/refresh.py` (lines 121–124). -/
def SOFT_NEGATIVE : List String := [
  "politic","guvern","parlament","aleger","ministr","pre»ôed","presed",
  "controvers","tensiun","protest","grev"]

/-- `POSITIVE_STRONG` from `scripts/refresh.py` (lines 126–136). -/
def POSITIVE_STRONG : List String := [
  "medalie de aur","medalie de argint","medalie de bronz",
  "locul √Ænt√¢i","locul intai","campion","campioan","olimpiad","record",
  "a c√¢»ôtigat","a castigat",
  "vindec","tratament nou","terapie nou","vaccin","imuniz",
  "rezultate promi»õƒÉtoare","rezultate promitatoare","remisie","supravie»õuire","supravietuire",
  "salvat","au salvat","adop»õ","adopt","voluntar","donat",
  "spital nou","sec»õie nou","sectie nou","inaugur"]

/-- `POSITIVE_WEAK` from `scripts/refresh.py` (lines 138–144). -/
def POSITIVE_WEAK : List String := [
  "inova","descoper","cercet","studiu","test clinic","aprobat",
  "start-up","startup","investi","finan»õare","finantare","parteneriat",
  "festival","eveniment","concert","expozi»õ","expozit","muzeu",
  "drƒÉgu»õ","dragut","simpatic","amuzant","funny","viral",
  "naturƒÉ","natura","recicl","plant","pƒÉdure","padure","energie verde"]

/-- Does the lowercased admission text of a title/summary pair contain the
given phrase?  The text is title, a space, and summary, lowercased, as in
`score_item`. -/
def admissionText (title summary : String) : String :=
  pyLowerStr (title ++ " " ++ summary)

/-- `score_item` from `scripts/refresh.py` (lines 148–174).  The Python
loops `for kw in L: if kw in text: score += w` are the folds below. -/
def score_item (title summary kind : String) : Int :=
  let text := admissionText title summary
  if NEGATIVE_KEYWORDS.any (fun kw => containsKw text kw) then -999
  else
    let s1 : Int := POSITIVE_STRONG.foldl
      (fun acc kw => if containsKw text kw then acc + 2 else acc) 0
    let s2 : Int := POSITIVE_WEAK.foldl
      (fun acc kw => if containsKw text kw then acc + 1 else acc) s1
    let score : Int := SOFT_NEGATIVE.foldl
      (fun acc kw => if containsKw text kw then acc - 1 else acc) s2
    if kind = "ro" ∧ score ≤ 0 then -999 else score


/-- Number of strong positive phrases matching the admission text. -/
def strongMatches (title summary : String) : Nat :=
  POSITIVE_STRONG.countP (fun kw => containsKw (admissionText title summary) kw)

/-- Number of weak positive phrases matching the admission text. -/
def weakMatches (title summary : String) : Nat :=
  POSITIVE_WEAK.countP (fun kw => containsKw (admissionText title summary) kw)

/-- Number of soft negative phrases matching the admission text. -/
def softMatches (title summary : String) : Nat :=
  SOFT_NEGATIVE.countP (fun kw => containsKw (admissionText title summary) kw)

/-- The additive keyword score of `score_item`: +2 per strong positive
phrase, +1 per weak one, −1 per soft negative. -/
def additiveScore (title summary : String) : Int :=
  2 * (strongMatches title summary : Int) + (weakMatches title summary : Int)
    - (softMatches title summary : Int)

/-- A 200-character summary containing no keyword of any list. -/
def longNeutralSummary : String :=
  ⟨List.replicate 200 'z'⟩

/-- `dedupe_key` from `scripts/refresh.py` (lines 181–183):
`base = (link or title or "").strip()`, then the SHA-1 hexdigest of `base`.
The digest is modelled as a collision-free embedding: the key is the hashed
base string itself, so two keys are equal exactly when the hashed bases are
equal (SHA-1 is treated as injective, which is how the set `seen` uses it). -/
def dedupe_key (link title : String) : String :=
  pyStrip (if link = "" then title else link)

/-- Python values occurring at the `score_item` call site of
`build_sections` (line 274). -/
inductive PyVal where
  | pystr : String → PyVal
  | pyint : Int → PyVal
  | pyFiltersDict : PyVal
deriving DecidableEq

/-- Python call semantics of `score_item`: the definition (line 148)
declares exactly three positional parameters `(title, summary, kind)`, so a
call with any other number of positional arguments raises `TypeError`
before the body runs.  For three string arguments the modelled body is
evaluated. -/
def score_item_call (args : List PyVal) : Except String PyVal :=
  if args.length = 3 then
    match args with
    | [PyVal.pystr t, PyVal.pystr s, PyVal.pystr k] =>
      Except.ok (PyVal.pyint (score_item t s k))
    | _ => Except.error "argument types outside the modelled domain"
  else Except.error "TypeError: score_item() takes 3 positional arguments"

/-- A feed entry as consumed by `build_sections` (lines 263–272).  `summary`
is the result of `get_entry_summary`, and `published_utc` the ISO timestamp
`(parse_entry_datetime(e) or now).replace(microsecond=0).isoformat()`; both
are carried as data since no claim depends on their extraction. -/
structure FeedEntry where
  title : String
  link : String
  summary : String
  published_utc : String
deriving DecidableEq

/-- An RSS source entry of the configuration (lines 256–262): `name` is
`src.get("name", section_id)`, `url` is the feed URL, and `entries` the
entries `fetch_rss(url)` returns for it (feed retrieval is I/O, modelled as
input data). -/
structure NewsSource where
  name : Option String
  url : String
  entries : List FeedEntry
deriving DecidableEq

/-- A `sections` configuration record (line 248): the id, the value
`int(s.get("max_items", 20))`, and an optional `min_quota` field that the
configuration may carry but the code never reads. -/
structure SectionDef where
  id : String
  max_items : Nat
  min_quota : Option Nat
deriving DecidableEq

/-- A published item of a section (lines 289–298; the optional translated
fields produced by `deepl_translate` are environment-dependent I/O and are
omitted — no claim depends on them).  The dict key `"section"` is the field
`section_id` (`section` is a Lean keyword). -/
structure NewsItem where
  section_id : String
  kind : String
  source : String
  title : String
  summary : String
  link : String
  published_utc : String
  score : Int
deriving DecidableEq

/-- `max_items_map.get(section_id, 20)` (line 248): the dict comprehension
keeps the last record for a duplicated id, and the lookup defaults to 20. -/
def maxItemsFor (defs : List SectionDef) (sid : String) : Nat :=
  match defs.reverse.find? (fun d => d.id = sid) with
  | some d => d.max_items
  | none => 20

/-- `int(thresholds.get(section_id, 0))` (line 278); the thresholds dict is
modelled as an association list without duplicate keys. -/
def thresholdFor (thresholds : List (String × Int)) (sid : String) : Int :=
  match thresholds.find? (fun p => p.1 = sid) with
  | some p => p.2
  | none => 0

/-- Drop the `min_quota` field of a section configuration record. -/
def stripQuota (d : SectionDef) : SectionDef :=
  ⟨d.id, d.max_items, none⟩

/-- The dedupe key of an emitted item, as `build_sections` computes it
(line 282). -/
def itemKey (i : NewsItem) : String :=
  dedupe_key i.link i.title

/-- The body of the entry loop of `build_sections` (lines 263–308),
parameterized by the scorer interface the call site uses:
`score, allowed = scorer(section_id, title, summary)` with the filters
configuration closed over.  The actual call
`score_item(section_id, title, summary, filters_cfg)` does not type-check
against `score_item`'s three declared parameters — that defect is modelled
separately by `score_item_call`.  State is the pair (accumulated items,
`seen` dedupe keys). -/
def entryStep (scorer : String → String → String → Int × Bool)
    (thresholds : List (String × Int)) (section_id : String)
    (st : List NewsItem × List String) (se : String × FeedEntry) :
    List NewsItem × List String :=
  if pyStrip se.2.title = "" ∨ pyStrip se.2.link = "" then st
  else if (scorer section_id (pyStrip se.2.title) se.2.summary).2 = false then st
  else if (scorer section_id (pyStrip se.2.title) se.2.summary).1
      < thresholdFor thresholds section_id then st
  else if dedupe_key (pyStrip se.2.link) (pyStrip se.2.title) ∈ st.2 then st
  else
    (st.1 ++ [⟨section_id, (if section_id = "romania" then "ro" else "global"),
      se.1, pyStrip se.2.title, se.2.summary, pyStrip se.2.link,
      se.2.published_utc, (scorer section_id (pyStrip se.2.title) se.2.summary).1⟩],
     st.2 ++ [dedupe_key (pyStrip se.2.link) (pyStrip se.2.title)])

/-- The source iteration of `build_sections` (lines 256–263): sources with
a blank URL are skipped, each feed contributes its first 60 entries, tagged
with the source name (defaulting to the section id). -/
def sourceStream (section_id : String) (sources : List NewsSource) :
    List (String × FeedEntry) :=
  sources.flatMap (fun src =>
    if pyStrip src.url = "" then []
    else (src.entries.take 60).map (fun e => (src.name.getD section_id, e)))

/-- Python's `<` on strings: code-point lexicographic order. -/
def strLtChars : List Char → List Char → Bool
  | [], [] => false
  | [], _ :: _ => true
  | _ :: _, [] => false
  | a :: as, b :: bs =>
    if a.toNat < b.toNat then true
    else if b.toNat < a.toNat then false
    else strLtChars as bs

/-- Python's `<` on strings. -/
def pyStrLt (a b : String) : Bool :=
  strLtChars a.data b.data

/-- Insert an item into a list sorted by `published_utc` descending,
after all items with an equal or later timestamp (the stable placement of
Python's `list.sort(key=..., reverse=True)`). -/
def insertByPublishedDesc (x : NewsItem) : List NewsItem → List NewsItem
  | [] => [x]
  | y :: ys =>
    if pyStrLt y.published_utc x.published_utc then x :: y :: ys
    else y :: insertByPublishedDesc x ys

/-- `items.sort(key=lambda x: x.get("published_utc", ""), reverse=True)`
(line 310): stable descending sort by timestamp. -/
def sortByPublishedDesc (items : List NewsItem) : List NewsItem :=
  items.foldl (fun acc x => insertByPublishedDesc x acc) []

/-- One section of `build_sections` (lines 253–312): run every entry of the
section's sources through the entry loop starting from the shared `seen`
set, then sort by recency and truncate to the section's `max_items`.
Returns the section's items and the updated `seen` set. -/
def sectionPass (scorer : String → String → String → Int × Bool)
    (defs : List SectionDef) (thresholds : List (String × Int))
    (section_id : String) (seen0 : List String) (sources : List NewsSource) :
    List NewsItem × List String :=
  let st := (sourceStream section_id sources).foldl
    (entryStep scorer thresholds section_id) ([], seen0)
  ((sortByPublishedDesc st.1).take (maxItemsFor defs section_id), st.2)

/-- `build_sections` (lines 242–314), over the configured
`rss_sources` mapping in iteration order, threading the shared `seen` set
through the sections. -/
def build_sections (scorer : String → String → String → Int × Bool)
    (defs : List SectionDef) (thresholds : List (String × Int))
    (rss_sources : List (String × List NewsSource)) :
    List (String × List NewsItem) :=
  (rss_sources.foldl (fun st sec =>
    let r := sectionPass scorer defs thresholds sec.1 st.2 sec.2
    (st.1 ++ [(sec.1, r.1)], r.2)) ([], [])).1

/-- `paywall_markers` of `looks_like_paywall` (lines 510–516). -/
def paywallMarkers : List String := [
  "continut premium", "doar pentru abonati", "devino abonat",
  "continua cu abonament", "aboneaza-te pentru a citi"]

/-- Final-URL substrings treated as paywall hints by `looks_like_paywall`
(line 506). -/
def paywallUrlHints : List String :=
  ["premium", "abon", "subscribe", "login", "cont"]

/-- `looks_like_paywall` from `scripts/refresh.py` (lines 501–517): a URL
substring check on the lowercased final URL combined with normalized body
markers.  (Defined in the source but never called by `build_satire`.) -/
def looks_like_paywall (final_url html : String) : Bool :=
  (paywallUrlHints.any (fun x => containsKw (pyLowerStr final_url) x)) ||
  (paywallMarkers.any (fun m => containsKw (normalize_text html) m))

/-- `re.sub(r"<[^>]+>", " ", ·)` of `strip_html` (line 41): replace each
leftmost match of `<[^>]+>` by one space; a `<` with no later `>` after at
least one intervening character is kept. -/
def stripHtmlChars : List Char → List Char
  | [] => []
  | c :: cs =>
    if c = '<' then
      let w := cs.takeWhile (fun d => !(d = '>'))
      if w.length = 0 ∨ cs.length ≤ w.length then c :: stripHtmlChars cs
      else ' ' :: stripHtmlChars (cs.drop (w.length + 1))
    else c :: stripHtmlChars cs
termination_by l => l.length
decreasing_by
  all_goals simp [List.length_drop]
  all_goals omega

/-- `strip_html` from `scripts/refresh.py` (lines 38–43). -/
def strip_html (s : String) : String :=
  ⟨stripChars (squashSpaces (stripHtmlChars s.data))⟩

/-- The satire record of `build_satire` (lines 616–622 and 661–668). -/
structure SatireItem where
  date_utc : String
  source : String
  title : String
  summary : String
  link : String
  note : String
deriving DecidableEq

/-- The probe loop of `build_satire` (lines 631–651): fetch each candidate;
skip it when the fetch fails, when body or final URL is empty, or when the
lowercased final URL contains `"/tnr-premium/"`; return the body and final
URL of the first candidate that passes.  `fetch` models
`fetch_url_with_final` (body, final URL on HTTP 200, failure otherwise). -/
def satire_probe (fetch : String → Option (String × String)) :
    List String → Option (String × String)
  | [] => none
  | link :: rest =>
    match fetch link with
    | none => satire_probe fetch rest
    | some (html, final) =>
      if html = "" ∨ final = "" then satire_probe fetch rest
      else if hasSub "/tnr-premium/".data (pyLowerStr final).data then
        satire_probe fetch rest
      else some (html, final)

/-- `picked_title = get_page_title(html) or "TimesNewRoman"`; the regex
title extraction `get_page_title` is abstracted as `titleOf`. -/
def satireTitle (titleOf : String → String) (html : String) : String :=
  if titleOf html = "" then "TimesNewRoman" else titleOf html

/-- `"‚Ä¶"`, the ellipsis literal of line 649 (double-encoded in the file). -/
def ellipsisStr : String := "‚Ä¶"

/-- The summary of a picked satire article (lines 643–649): the meta
description when present (extraction abstracted as `descOf`), else the
first 240 characters of the stripped page text. -/
def satireSummary (descOf : String → String) (html : String) : String :=
  if descOf html = "" then
    let text : String := ⟨stripChars (squashSpaces (strip_html html).data)⟩
    String.mk (dropTrailWs (text.data.take 240)) ++
      (if 240 < text.data.length then ellipsisStr else "")
  else pyStrip (descOf html)

/-- `picked_link = final_url or picked_link` of the fallback branch
(lines 653–657). -/
def satireFallbackLink (fetch : String → Option (String × String))
    (c0 : String) : String :=
  match fetch c0 with
  | none => c0
  | some (_, f) => if f = "" then c0 else f

/-- The body fetched in the fallback branch (`html or ""`). -/
def satireFallbackHtml (fetch : String → Option (String × String))
    (c0 : String) : String :=
  match fetch c0 with
  | none => ""
  | some (h, _) => h

/-- The note attached to every satire record (transcribed verbatim). -/
def satireNote : String := "SatirƒÉ ‚Äî nu este »ôtire realƒÉ."

/-- `build_satire` from `scripts/refresh.py` (lines 562–668), from the
candidate stage on: candidate extraction runs over fetched listing pages
and `random.shuffle` is nondeterministic I/O, so the model receives the
already-shuffled candidate list as input; `titleOf`/`descOf` abstract the
regex extractors `get_page_title`/`extract_meta_description`. -/
def build_satire (fetch : String → Option (String × String))
    (titleOf descOf : String → String) (today : String)
    (enabled : Bool) (candidates : List String) : List SatireItem :=
  if enabled = false then []
  else
    match candidates with
    | [] => [⟨today, "TimesNewRoman", "TimesNewRoman",
        "Nu am gƒÉsit un articol azi (refresh urmƒÉtor).",
        "https://www.timesnewroman.ro/monden/", satireNote⟩]
    | c0 :: rest =>
      match satire_probe fetch ((c0 :: rest).take 25) with
      | some (html, final) =>
        [⟨today, "TimesNewRoman", satireTitle titleOf html,
          satireSummary descOf html, final, satireNote⟩]
      | none =>
        [⟨today, "TimesNewRoman",
          satireTitle titleOf (satireFallbackHtml fetch c0),
          pyStrip (descOf (satireFallbackHtml fetch c0)),
          satireFallbackLink fetch c0, satireNote⟩]

/-- A photo feed entry as consumed by `build_photos` (lines 387–401):
`image` is the result of the `extract_image_url` cascade (whose final step
is a network fetch, so the resolved image is carried as input data), and
`published_utc` the derived ISO timestamp. -/
structure PhotoEntry where
  title : String
  link : String
  image : Option String
  published_utc : String
deriving DecidableEq

/-- A photo source of the configuration (lines 380–386). -/
structure PhotoSource where
  name : Option String
  url : String
  entries : List PhotoEntry
deriving DecidableEq

/-- One emitted photo slot (lines 403–411 / 422–430). -/
structure PhotoSlot where
  category_id : String
  category_label : String
  source : String
  title : String
  link : String
  image_url : String
  published_utc : String
deriving DecidableEq

/-- The fixed category list of `build_photos` (lines 367–371), labels
transcribed verbatim from the file. -/
def photoCategories : List (String × String) :=
  [("space", "üöÄ Spa»õiu"), ("animals", "üêæ Animale"),
   ("landscapes", "üèûÔ∏è Peisaj")]

/-- The placeholder slot of `build_photos` (lines 422–430). -/
def placeholderSlot (catId catLabel now : String) : PhotoSlot :=
  ⟨catId, catLabel, "‚Äî", "Nu am gƒÉsit pozƒÉ acum (refresh urmƒÉtor)",
   "https://vcarciu.github.io/vesti-bune/",
   "https://vcarciu.github.io/vesti-bune/og.jpg", now⟩

/-- The entry loop of `build_photos` (lines 387–412): skip entries with a
blank link, without a resolved image, or whose image was already used;
pick the first remaining entry. -/
def pickPhotoFromEntries (used : List String) (catId catLabel srcName : String) :
    List PhotoEntry → Option PhotoSlot
  | [] => none
  | e :: rest =>
    if pyStrip e.link = "" then
      pickPhotoFromEntries used catId catLabel srcName rest
    else
      match e.image with
      | none => pickPhotoFromEntries used catId catLabel srcName rest
      | some img =>
        if img = "" then pickPhotoFromEntries used catId catLabel srcName rest
        else if img ∈ used then pickPhotoFromEntries used catId catLabel srcName rest
        else some ⟨catId, catLabel, srcName,
          (if pyStrip e.title = "" then catLabel else pyStrip e.title),
          pyStrip e.link, img, e.published_utc⟩

/-- The source loop of `build_photos` (lines 380–415): skip sources with a
blank URL; each feed contributes its first 60 entries; stop at the first
source that yields a pick. -/
def pickPhotoFromSources (used : List String) (catId catLabel : String) :
    List PhotoSource → Option PhotoSlot
  | [] => none
  | src :: rest =>
    if pyStrip src.url = "" then pickPhotoFromSources used catId catLabel rest
    else
      match pickPhotoFromEntries used catId catLabel (src.name.getD catLabel)
          (src.entries.take 60) with
      | some slot => some slot
      | none => pickPhotoFromSources used catId catLabel rest

/-- One category step of `build_photos` (lines 376–430): append the picked
slot and record its image as used, or append the placeholder. -/
def photosStep (photo_sources : String → List PhotoSource) (now : String)
    (st : List PhotoSlot × List String) (cat : String × String) :
    List PhotoSlot × List String :=
  match pickPhotoFromSources st.2 cat.1 cat.2 (photo_sources cat.1) with
  | some slot => (st.1 ++ [slot], st.2 ++ [slot.image_url])
  | none => (st.1 ++ [placeholderSlot cat.1 cat.2 now], st.2)

/-- `build_photos` from `scripts/refresh.py` (lines 361–432).
`photo_sources` models `cfg.get("photo_sources")` (a category id maps to
its configured source list, `or []`), `now` the run timestamp.  Returns the
emitted slots (`out[:3]`) together with the final `used_images` state in
insertion order. -/
def build_photos (photo_sources : String → List PhotoSource) (now : String) :
    List PhotoSlot × List String :=
  let st := photoCategories.foldl (photosStep photo_sources now) ([], [])
  (st.1.take 3, st.2)

/-- The emitted joke record of `build_joke` (lines 331–334). -/
structure JokeRec where
  date_utc : String
  text : String
deriving DecidableEq

/-- The corpus filter of `build_joke` (lines 321–323): strip each line of
the jokes file, drop blank lines and `#` comments. -/
def jokes_of (lines : List String) : List String :=
  (lines.map pyStrip).filter
    (fun j => if j = "" then false else !(startsWithChars ['#'] j.data))

/-- `build_joke` from `scripts/refresh.py` (lines 317–334).  The jokes file
is modelled by the list of its lines (a missing file behaves as an empty
corpus, returning `none` either way); `digest` models
`int(hashlib.sha1(day.encode()).hexdigest(), 16)` — the SHA-1 digest value
as a function of the date string, about whose concrete values no settled
claim assumes anything; `day` is the UTC date string `%Y-%m-%d`. -/
def build_joke (digest : String → Nat) (day : String) (lines : List String) :
    Option JokeRec :=
  match jokes_of lines with
  | [] => none
  | j :: js => some ⟨day,
      (j :: js).get ⟨digest day % (j :: js).length,
        Nat.mod_lt _ (Nat.succ_pos _)⟩⟩

/-- A character whose lowercasing, decomposition and combining status are
all trivial; normalized output made of such characters is stable under a
second normalization. -/
def goodChar (d : Char) : Bool :=
  decide (pyLower d = d) && decide (nfkdChar d = [d]) && !(isCombiningMark d)

/-- Every character of the string lowercases and decomposes into combining
marks or `goodChar`s.  This holds for all ASCII and Romanian-diacritic
text; it fails e.g. for `№`, whose compatibility decomposition contains an
uppercase letter. -/
def stableStr (s : String) : Bool :=
  s.data.all (fun c => (nfkdChar (pyLower c)).all
    (fun d => isCombiningMark d || goodChar d))

/-- The head of the list, if any, is not whitespace. -/
def headNotWs : List Char → Prop
  | [] => True
  | c :: _ => pyIsSpace c = false

/-- No two adjacent whitespace characters. -/
def noAdjWs : List Char → Prop
  | [] => True
  | [_] => True
  | a :: b :: t => ¬(pyIsSpace a = true ∧ pyIsSpace b = true) ∧ noAdjWs (b :: t)

/-- Concrete scorer for the relaxation counterexample: admits exactly the
entries titled `"bun"`. -/
def c2scorer : String → String → String → Int × Bool :=
  fun _ title _ => if title = "bun" then (1, true) else (0, false)

/-- A section configuration declaring `min_quota = 2`. -/
def c2defs : List SectionDef := [⟨"stiri", 20, some 2⟩]

/-- A source with one admitted and one rejected entry. -/
def c2sources : List NewsSource :=
  [⟨some "src", "https://feed.example/rss",
    [⟨"bun", "https://x/a", "", "2024-01-02T00:00:00+00:00"⟩,
     ⟨"slab", "https://x/b", "", "2024-01-01T00:00:00+00:00"⟩]⟩]

/-- A scorer admitting every entry, for the deduplication counterexample. -/
def c3scorer : String → String → String → Int × Bool :=
  fun _ _ _ => (1, true)

/-- Two entries whose links differ only by a tracking parameter and whose
titles are equal. -/
def c3sources : List NewsSource :=
  [⟨some "src", "https://feed.example/rss",
    [⟨"t", "https://x/a?utm_source=fb", "", "2024-01-02T00:00:00+00:00"⟩,
     ⟨"t", "https://x/a", "", "2024-01-01T00:00:00+00:00"⟩]⟩]

/-- A timesnewroman article URL (contains none of the paywall URL hints). -/
def tnrArticle1 : String := "https://www.timesnewroman.ro/monden/articol-unu/"

/-- A second article URL. -/
def tnrArticle2 : String := "https://www.timesnewroman.ro/sport/articol-doi/"

/-- A page body carrying the body-marker paywall signals of
`looks_like_paywall`. -/
def paywalledHtml : String :=
  "<div>Conținut premium. Doar pentru abonați.</div>"

/-- A page body with no paywall signal. -/
def cleanHtml : String := "<div>Stire normala.</div>"

/-- A fetcher for the featured-picker counterexample: the first candidate
resolves to a body-paywalled page, the second to a clean one. -/
def c7fetch : String → Option (String × String) := fun u =>
  if u = tnrArticle1 then some (paywalledHtml, tnrArticle1)
  else if u = tnrArticle2 then some (cleanHtml, tnrArticle2)
  else none

/-- A fold adding `w` for every matching element counts the matches. -/
theorem foldl_if_addw (p : String → Bool) (w : Int) :
    ∀ (l : List String) (a : Int),
      l.foldl (fun acc kw => if p kw then acc + w else acc) a
        = a + w * (l.countP p : Int)
  | [], a => by simp
  | kw :: l, a => by
    cases hp : p kw with
    | true =>
      simp only [List.foldl_cons, hp, if_true, foldl_if_addw p w l,
        List.countP_cons, hp]
      push_cast
      ring
    | false =>
      simp only [List.foldl_cons, hp, if_false, foldl_if_addw p w l,
        List.countP_cons, hp]
      push_cast
      ring

/-- A fold subtracting 1 for every matching element counts the matches. -/
theorem foldl_if_sub1 (p : String → Bool) :
    ∀ (l : List String) (a : Int),
      l.foldl (fun acc kw => if p kw then acc - 1 else acc) a
        = a - (l.countP p : Int)
  | [], a => by simp
  | kw :: l, a => by
    cases hp : p kw with
    | true =>
      simp only [List.foldl_cons, hp, if_true, foldl_if_sub1 p l,
        List.countP_cons, hp]
      push_cast
      ring
    | false =>
      simp only [List.foldl_cons, hp, if_false, foldl_if_sub1 p l,
        List.countP_cons, hp]
      push_cast
      ring

/-- `score_item` on a non-hard-blocked text is the domestic gate applied to
the additive keyword score. -/
theorem score_item_eq (title summary kind : String)
    (hnb : NEGATIVE_KEYWORDS.any
      (fun kw => containsKw (admissionText title summary) kw) = false) :
    score_item title summary kind =
      if kind = "ro" ∧ additiveScore title summary ≤ 0 then -999
      else additiveScore title summary := by
  have hadd : (0 : Int)
      + 2 * (strongMatches title summary : Int)
      + 1 * (weakMatches title summary : Int)
      - (softMatches title summary : Int) = additiveScore title summary := by
    unfold additiveScore
    ring
  simp only [score_item, hnb, Bool.false_eq_true, if_false,
    foldl_if_addw, foldl_if_sub1]
  rw [show (strongMatches title summary : Int)
      = (POSITIVE_STRONG.countP (fun kw => containsKw (admissionText title summary) kw) : Int)
      from rfl] at hadd
  rw [show (weakMatches title summary : Int)
      = (POSITIVE_WEAK.countP (fun kw => containsKw (admissionText title summary) kw) : Int)
      from rfl] at hadd
  rw [show (softMatches title summary : Int)
      = (SOFT_NEGATIVE.countP (fun kw => containsKw (admissionText title summary) kw) : Int)
      from rfl] at hadd
  rw [hadd]

/-- The soft-negative count is bounded by the list length, so the additive
score never reaches the sentinel −999. -/
theorem additiveScore_ge (title summary : String) :
    -11 ≤ additiveScore title summary := by
  have hz : softMatches title summary ≤ 11 := by
    have := List.countP_le_length
      (p := fun kw => containsKw (admissionText title summary) kw)
      (l := SOFT_NEGATIVE)
    simpa [SOFT_NEGATIVE] using this
  unfold additiveScore
  have h2 : (0 : Int) ≤ (strongMatches title summary : Int) := Int.natCast_nonneg _
  have h3 : (0 : Int) ≤ (weakMatches title summary : Int) := Int.natCast_nonneg _
  have h4 : (softMatches title summary : Int) ≤ 11 := by exact_mod_cast hz
  omega

/-- Claim C1 (amended): if the lowercased `title + " " + summary` admission
text contains any hard-block phrase, `score_item` returns the sentinel −999
immediately, for every kind and no matter which positive phrases also
occur; the matching text is only lowercased, not the diacritic-normalized
text of `normalize_text` (see `C1_counterexample`), and an entry scored
−999 is dropped by every configuration whose threshold exceeds −999. -/
theorem C1_hard_block_sentinel (title summary kind kw : String)
    (hkw : kw ∈ NEGATIVE_KEYWORDS)
    (hmatch : containsKw (admissionText title summary) kw = true) :
    score_item title summary kind = -999 := by
  have h : NEGATIVE_KEYWORDS.any
      (fun k => containsKw (admissionText title summary) k) = true :=
    List.any_eq_true.mpr ⟨kw, hkw, hmatch⟩
  simp only [score_item, h, if_true]

/-- Witness for C1: a concrete hard-blocked title (phrase `"criz"`),
also carrying the positive phrase `"record"`. -/
theorem C1_witness :
    score_item "Criza politica escaladeaza, record" "" "global" = -999 :=
  C1_hard_block_sentinel _ _ _ "criz" (by decide) (by decide)

/-- Claim C1 as stated is false of the code: for the entry titled `"Şomaj"`
(capital S with cedilla) the diacritic-normalized title+summary text
contains the hard-block phrase `"somaj"`, yet `score_item` does not
hard-block the entry — the code matches phrases against the merely
lowercased text, in which `"şomaj"` matches no hard-block phrase. -/
theorem C1_counterexample :
    "somaj" ∈ NEGATIVE_KEYWORDS ∧
    containsKw (normalize_text ("Şomaj" ++ " " ++ "")) "somaj" = true ∧
    score_item "Şomaj" "" "global" = 0 := by decide

/-- Claim C4 (amended): for a domestic (`kind = "ro"`) entry that is not
hard-blocked, the strict evaluation admits exactly when the additive
keyword score is positive, and the admitted score is that additive score.
A strict positive-hint phrase is neither necessary (a weak hint alone can
admit) nor sufficient (soft negatives can cancel it), and there is no
fixed baseline score. -/
theorem C4_domestic_gate (title summary : String)
    (hnb : NEGATIVE_KEYWORDS.any
      (fun kw => containsKw (admissionText title summary) kw) = false) :
    (score_item title summary "ro" = -999 ↔ additiveScore title summary ≤ 0) ∧
    (0 < additiveScore title summary →
      score_item title summary "ro" = additiveScore title summary) := by
  have h := score_item_eq title summary "ro" hnb
  have hb := additiveScore_ge title summary
  constructor
  · constructor
    · intro he
      by_contra hle
      push_neg at hle
      rw [h, if_neg] at he
      · omega
      · simp only [not_and, not_le]
        intro
        omega
    · intro hle
      rw [h, if_pos ⟨rfl, hle⟩]
  · intro hpos
    rw [h, if_neg]
    simp only [not_and, not_le]
    intro
    omega

/-- Witness for C4: a concrete domestic entry with a strong hint and
positive additive score. -/
theorem C4_witness :
    score_item "inaugurare" "" "ro" = additiveScore "inaugurare" "" :=
  (C4_domestic_gate "inaugurare" "" (by decide)).2 (by decide)

/-- Claim C4 as stated is false of the code: the domestic entry titled
`"inova"` contains no strict positive-hint phrase and is not hard-blocked,
yet the strict (non-relaxed) evaluation admits it with score 1, earned by
a weak hint alone. -/
theorem C4_counterexample :
    POSITIVE_STRONG.any (fun kw => containsKw (admissionText "inova" "") kw) = false ∧
    score_item "inova" "" "ro" = 1 := by decide

/-- Claim C5 (amended): for open (non-domestic) kinds the score of a
non-hard-blocked entry is additive over keyword matches only — +2 per
strong positive, +1 per weak positive, −1 per soft negative — with no
summary-length bonus and no empty-summary penalty; `build_sections` drops
an entry whose score is below the per-section threshold, which defaults to
0 for unconfigured sections, so by default a negative score is rejected
and a zero score admitted. -/
theorem C5_open_scoring :
    (∀ title summary kind, kind ≠ "ro" →
      NEGATIVE_KEYWORDS.any
        (fun kw => containsKw (admissionText title summary) kw) = false →
      score_item title summary kind = additiveScore title summary) ∧
    (∀ sid, thresholdFor [] sid = 0) ∧
    (∀ scorer thresholds sid st name e,
      (scorer sid (pyStrip e.title) e.summary).1 < thresholdFor thresholds sid →
      entryStep scorer thresholds sid st (name, e) = st) := by
  refine ⟨?_, ?_, ?_⟩
  · intro title summary kind hk hnb
    rw [score_item_eq title summary kind hnb, if_neg]
    simp only [not_and]
    intro hro
    exact absurd hro hk
  · intro sid
    rfl
  · intro scorer thresholds sid st name e hthr
    unfold entryStep
    by_cases hblank : pyStrip (name, e).2.title = "" ∨ pyStrip (name, e).2.link = ""
    · rw [if_pos hblank]
    · rw [if_neg hblank]
      by_cases hall : (scorer sid (pyStrip (name, e).2.title) (name, e).2.summary).2 = false
      · rw [if_pos hall]
      · rw [if_neg hall, if_pos hthr]

set_option maxRecDepth 40000

/-- Witness for C5: the neutral 200-character summary scores identically to
the empty one, via the additive characterization. -/
theorem C5_witness :
    score_item "inova" longNeutralSummary "global"
      = additiveScore "inova" longNeutralSummary :=
  C5_open_scoring.1 "inova" longNeutralSummary "global" (by decide) (by decide)

/-- Claim C5 as stated is false of the code: there is no small fixed bonus
for summaries above a length threshold and no penalty for empty summaries —
an empty summary and a 200-character neutral summary yield the same
score 1. -/
theorem C5_counterexample :
    score_item "inova" "" "global" = 1 ∧
    score_item "inova" longNeutralSummary "global" = 1 := by decide

/-- Inserting into the descending-sorted list is a permutation of consing. -/
theorem insertByPublishedDesc_perm (x : NewsItem) :
    ∀ l : List NewsItem, List.Perm (insertByPublishedDesc x l) (x :: l)
  | [] => List.Perm.refl _
  | y :: ys => by
    unfold insertByPublishedDesc
    by_cases h : pyStrLt y.published_utc x.published_utc
    · rw [if_pos h]
    · rw [if_neg h]
      exact ((insertByPublishedDesc_perm x ys).cons y).trans (List.Perm.swap x y ys)

/-- The insertion-sort fold permutes its input. -/
theorem sortFold_perm :
    ∀ (l acc : List NewsItem),
      List.Perm (l.foldl (fun acc x => insertByPublishedDesc x acc) acc) (l ++ acc)
  | [], acc => by simp
  | x :: l, acc => by
    simp only [List.foldl_cons]
    exact (sortFold_perm l (insertByPublishedDesc x acc)).trans
      ((List.Perm.append_left l (insertByPublishedDesc_perm x acc)).trans
        List.perm_middle)

/-- `sortByPublishedDesc` permutes its input. -/
theorem sortByPublishedDesc_perm (l : List NewsItem) :
    List.Perm (sortByPublishedDesc l) l := by
  simpa [sortByPublishedDesc] using sortFold_perm l []

/-- Each entry step either leaves the state unchanged or appends one item
whose dedupe key was not yet seen, recording that key as seen. -/
theorem entryStep_cases (scorer : String → String → String → Int × Bool)
    (thresholds : List (String × Int)) (sid : String)
    (st : List NewsItem × List String) (se : String × FeedEntry) :
    entryStep scorer thresholds sid st se = st ∨
    ∃ item : NewsItem, itemKey item ∉ st.2 ∧
      entryStep scorer thresholds sid st se
        = (st.1 ++ [item], st.2 ++ [itemKey item]) := by
  unfold entryStep
  by_cases h1 : pyStrip se.2.title = "" ∨ pyStrip se.2.link = ""
  · rw [if_pos h1]; left; rfl
  · rw [if_neg h1]
    by_cases h2 : (scorer sid (pyStrip se.2.title) se.2.summary).2 = false
    · rw [if_pos h2]; left; rfl
    · rw [if_neg h2]
      by_cases h3 : (scorer sid (pyStrip se.2.title) se.2.summary).1
          < thresholdFor thresholds sid
      · rw [if_pos h3]; left; rfl
      · rw [if_neg h3]
        by_cases h4 : dedupe_key (pyStrip se.2.link) (pyStrip se.2.title) ∈ st.2
        · rw [if_pos h4]; left; rfl
        · rw [if_neg h4]
          right
          exact ⟨⟨sid, (if sid = "romania" then "ro" else "global"), se.1,
            pyStrip se.2.title, se.2.summary, pyStrip se.2.link,
            se.2.published_utc, (scorer sid (pyStrip se.2.title) se.2.summary).1⟩,
            h4, rfl⟩

/-- Invariant of the entry fold: the emitted items carry pairwise-distinct
dedupe keys, all recorded in the `seen` set. -/
theorem entryFold_keys_nodup (scorer : String → String → String → Int × Bool)
    (thresholds : List (String × Int)) (sid : String) :
    ∀ (stream : List (String × FeedEntry)) (st : List NewsItem × List String),
      (st.1.map itemKey).Nodup → (∀ k ∈ st.1.map itemKey, k ∈ st.2) →
      ((stream.foldl (entryStep scorer thresholds sid) st).1.map itemKey).Nodup ∧
      ∀ k ∈ (stream.foldl (entryStep scorer thresholds sid) st).1.map itemKey,
        k ∈ (stream.foldl (entryStep scorer thresholds sid) st).2
  | [], st => by
    intro hnd hsub
    exact ⟨hnd, hsub⟩
  | se :: stream, st => by
    intro hnd hsub
    simp only [List.foldl_cons]
    rcases entryStep_cases scorer thresholds sid st se with h | ⟨item, hnew, h⟩
    · rw [h]
      exact entryFold_keys_nodup scorer thresholds sid stream st hnd hsub
    · rw [h]
      apply entryFold_keys_nodup scorer thresholds sid stream
      · show ((st.1 ++ [item]).map itemKey).Nodup
        rw [List.map_append, List.map_singleton]
        refine ((List.perm_append_singleton _ _).nodup_iff).mpr ?_
        exact List.nodup_cons.mpr ⟨fun hmem => hnew (hsub _ hmem), hnd⟩
      · show ∀ k ∈ (st.1 ++ [item]).map itemKey, k ∈ st.2 ++ [itemKey item]
        intro k hk
        rw [List.map_append, List.map_singleton, List.mem_append,
          List.mem_singleton] at hk
        rcases hk with hk | hk
        · exact List.mem_append_left _ (hsub k hk)
        · subst hk
          exact List.mem_append_right _ (List.mem_singleton_self _)

/-- `find?` over `stripQuota`-mapped records finds the stripped version of
the same record. -/
theorem find?_stripQuota (l : List SectionDef) (sid : String) :
    (l.map stripQuota).find? (fun d => d.id = sid)
      = (l.find? (fun d => d.id = sid)).map stripQuota := by
  induction l with
  | nil => rfl
  | cons d l ih =>
    by_cases h : d.id = sid
    · simp [List.find?_cons, stripQuota, h]
    · simp [List.find?_cons, stripQuota, h, ih]

/-- `maxItemsFor` ignores the `min_quota` field. -/
theorem maxItemsFor_stripQuota (defs : List SectionDef) (sid : String) :
    maxItemsFor (defs.map stripQuota) sid = maxItemsFor defs sid := by
  unfold maxItemsFor
  rw [← List.map_reverse, find?_stripQuota]
  cases defs.reverse.find? (fun d => d.id = sid) <;> rfl

/-- Claim C2 (amended): `build_sections` performs a single strict pass per
section — no relaxation mechanism exists.  The declared `min_quota` of a
section is never read, so the result is identical whatever quota any
section declares, no rejected entry is ever re-evaluated, and the final
list never exceeds the section's `max_items`. -/
theorem C2_single_pass :
    (∀ scorer defs thresholds sid seen0 sources,
      sectionPass scorer defs thresholds sid seen0 sources
        = sectionPass scorer (defs.map stripQuota) thresholds sid seen0 sources) ∧
    (∀ scorer defs thresholds sid seen0 sources,
      (sectionPass scorer defs thresholds sid seen0 sources).1.length
        ≤ maxItemsFor defs sid) := by
  constructor
  · intro scorer defs thresholds sid seen0 sources
    unfold sectionPass
    rw [maxItemsFor_stripQuota]
  · intro scorer defs thresholds sid seen0 sources
    unfold sectionPass
    exact List.length_take_le _ _

/-- Claim C2 as stated is false of the code: with `min_quota = 2`, a strict
pass admitting a single entry and a strictly rejected second entry in the
pool, the final section holds 1 item — short of the quota — and the result
does not change when the quota is removed: no relaxation pass runs. -/
theorem C2_counterexample :
    (sectionPass c2scorer c2defs [] "stiri" [] c2sources).1.length = 1 ∧
    (c2scorer "stiri" "slab" "").2 = false ∧
    sectionPass c2scorer c2defs [] "stiri" [] c2sources
      = sectionPass c2scorer (c2defs.map stripQuota) [] "stiri" [] c2sources := by
  decide

/-- Claim C3 (amended): the dedupe key is the SHA-1 of the stripped raw
link alone (the title substitutes only for an empty link): no
tracking-parameter, fragment or trailing-slash canonicalization and no
title component.  Consequently two nonempty links collide exactly when the
stripped raw links are equal — so links differing only by tracking
parameters are distinct items, titles are ignored, and within a pass the
emitted items carry pairwise distinct keys (first occurrence wins). -/
theorem C3_dedup :
    (∀ scorer defs thresholds sid seen0 sources,
      (((sectionPass scorer defs thresholds sid seen0 sources).1.map itemKey)).Nodup) ∧
    (∀ l1 t1 l2 t2 : String, l1 ≠ "" → l2 ≠ "" →
      (dedupe_key l1 t1 = dedupe_key l2 t2 ↔ pyStrip l1 = pyStrip l2)) := by
  constructor
  · intro scorer defs thresholds sid seen0 sources
    unfold sectionPass
    have hinv := entryFold_keys_nodup scorer thresholds sid
      (sourceStream sid sources) ([], seen0) (by simp) (by simp)
    have hperm := (sortByPublishedDesc_perm
      ((sourceStream sid sources).foldl (entryStep scorer thresholds sid)
        ([], seen0)).1).map itemKey
    have hsorted := (hperm.nodup_iff).mpr hinv.1
    exact List.Nodup.sublist
      (List.Sublist.map itemKey (List.take_sublist _ _)) hsorted
  · intro l1 t1 l2 t2 h1 h2
    unfold dedupe_key
    rw [if_neg h1, if_neg h2]

/-- Witness for C3: the same nonempty link with two different titles yields
the same dedupe key — the title is ignored. -/
theorem C3_witness :
    dedupe_key "https://x/a" "titlu unu" = dedupe_key "https://x/a" "alt titlu" :=
  (C3_dedup.2 "https://x/a" "titlu unu" "https://x/a" "alt titlu"
    (by decide) (by decide)).mpr (by decide)

/-- Claim C3 as stated is false of the code: two entries whose links differ
only by a tracking parameter (`?utm_source=fb`) and whose titles are equal
get different dedupe keys, and both survive into the section output — no
canonicalization is performed. -/
theorem C3_counterexample :
    dedupe_key "https://x/a?utm_source=fb" "t" ≠ dedupe_key "https://x/a" "t" ∧
    ((sectionPass c3scorer [] [] "stiri" [] c3sources).1.map (fun i => i.link))
      = ["https://x/a?utm_source=fb", "https://x/a"] := by
  decide

/-- Claim C6: the admission step of `build_sections` is NOT well-defined.
`score_item` declares exactly the three parameters `(title, summary, kind)`
and returns a single int, but line 274 calls it with the four positional
arguments `(section_id, title, summary, filters_cfg)` and unpacks the
result into `(score, allowed)`: under Python call semantics the call raises
`TypeError` for every processed entry, before any unpacking. -/
theorem C6_call_type_error (section_id title summary : String) :
    score_item_call [PyVal.pystr section_id, PyVal.pystr title,
      PyVal.pystr summary, PyVal.pyFiltersDict]
      = Except.error "TypeError: score_item() takes 3 positional arguments" := rfl

/-- Claim C7 (amended): the featured picker probes the shuffled candidates
one at a time and skips only candidates whose fetch fails, whose body or
final URL is empty, or whose final URL contains `"/tnr-premium/"` — the
combined URL-pattern + body-marker heuristic `looks_like_paywall` is
defined in the source but never invoked, so body-paywalled pages are not
skipped.  When no candidate is picked it falls back to the first
candidate's resolved link, and with satire enabled the result is always
exactly one record (never empty). -/
theorem C7_featured_picker :
    (∀ fetch titleOf descOf today candidates,
      (build_satire fetch titleOf descOf today true candidates).length = 1) ∧
    (∀ fetch candidates html final,
      satire_probe fetch candidates = some (html, final) →
        html ≠ "" ∧ final ≠ "" ∧
        hasSub "/tnr-premium/".data (pyLowerStr final).data = false) ∧
    (∀ fetch titleOf descOf today c0 rest,
      satire_probe fetch ((c0 :: rest).take 25) = none →
      (build_satire fetch titleOf descOf today true (c0 :: rest)).map
        (fun r => r.link) = [satireFallbackLink fetch c0]) := by
  refine ⟨?_, ?_, ?_⟩
  · intro fetch titleOf descOf today candidates
    unfold build_satire
    rw [if_neg (by simp)]
    cases candidates with
    | nil => rfl
    | cons c0 rest =>
      cases h : satire_probe fetch ((c0 :: rest).take 25) with
      | none => simp only [h]; rfl
      | some pr =>
        cases pr with
        | mk html final => simp only [h]; rfl
  · intro fetch candidates
    induction candidates with
    | nil =>
      intro html final h
      exact absurd h (by simp [satire_probe])
    | cons c rest ih =>
      intro html final h
      unfold satire_probe at h
      cases hf : fetch c with
      | none =>
        simp only [hf] at h
        exact ih html final h
      | some pr =>
        simp only [hf] at h
        cases pr with
        | mk ph pf =>
          by_cases hb : ph = "" ∨ pf = ""
          · rw [if_pos hb] at h
            exact ih html final h
          · rw [if_neg hb] at h
            by_cases hp : hasSub "/tnr-premium/".data (pyLowerStr pf).data = true
            · rw [if_pos hp] at h
              exact ih html final h
            · rw [if_neg hp] at h
              push_neg at hb
              have hh : ph = html ∧ pf = final := by
                have := h
                simp only [Option.some.injEq, Prod.mk.injEq] at this
                exact this
              rcases hh with ⟨h1, h2⟩
              subst h1
              subst h2
              exact ⟨hb.1, hb.2, by simpa using hp⟩
  · intro fetch titleOf descOf today c0 rest h
    unfold build_satire
    rw [if_neg (by simp)]
    simp only [h]
    rfl

/-- Witness for C7: the probe applied to the concrete two-candidate run
picks a candidate with nonempty body and final URL free of
`"/tnr-premium/"`. -/
theorem C7_witness :
    paywalledHtml ≠ "" ∧ tnrArticle1 ≠ "" ∧
    hasSub "/tnr-premium/".data (pyLowerStr tnrArticle1).data = false :=
  C7_featured_picker.2.1 c7fetch [tnrArticle1, tnrArticle2]
    paywalledHtml tnrArticle1 (by decide)

/-- Claim C7 as stated is false of the code: the first candidate resolves
to a page that the combined heuristic `looks_like_paywall` classifies as
paywalled (body markers), the second is clean — yet the probe picks the
paywalled first candidate, because `build_satire` only inspects the final
URL for `"/tnr-premium/"` and never consults the body heuristic. -/
theorem C7_counterexample :
    looks_like_paywall tnrArticle1 paywalledHtml = true ∧
    looks_like_paywall tnrArticle2 cleanHtml = false ∧
    satire_probe c7fetch ([tnrArticle1, tnrArticle2].take 25)
      = some (paywalledHtml, tnrArticle1) := by decide

/-- A picked photo slot carries the requested category id and an image not
yet used. -/
theorem pickPhotoFromEntries_spec (used : List String) (cid cl nm : String) :
    ∀ (es : List PhotoEntry) (slot : PhotoSlot),
      pickPhotoFromEntries used cid cl nm es = some slot →
      slot.category_id = cid ∧ slot.image_url ∉ used
  | [], slot => by
    intro h
    exact absurd h (by simp [pickPhotoFromEntries])
  | e :: rest, slot => by
    intro h
    unfold pickPhotoFromEntries at h
    by_cases h1 : pyStrip e.link = ""
    · rw [if_pos h1] at h
      exact pickPhotoFromEntries_spec used cid cl nm rest slot h
    · rw [if_neg h1] at h
      cases hi : e.image with
      | none =>
        simp only [hi] at h
        exact pickPhotoFromEntries_spec used cid cl nm rest slot h
      | some img =>
        simp only [hi] at h
        by_cases h2 : img = ""
        · rw [if_pos h2] at h
          exact pickPhotoFromEntries_spec used cid cl nm rest slot h
        · rw [if_neg h2] at h
          by_cases h3 : img ∈ used
          · rw [if_pos h3] at h
            exact pickPhotoFromEntries_spec used cid cl nm rest slot h
          · rw [if_neg h3] at h
            have hs : slot = ⟨cid, cl, nm,
                (if pyStrip e.title = "" then cl else pyStrip e.title),
                pyStrip e.link, img, e.published_utc⟩ := by
              simpa using h.symm
            subst hs
            exact ⟨rfl, h3⟩

/-- The source loop inherits the entry-loop specification. -/
theorem pickPhotoFromSources_spec (used : List String) (cid cl : String) :
    ∀ (srcs : List PhotoSource) (slot : PhotoSlot),
      pickPhotoFromSources used cid cl srcs = some slot →
      slot.category_id = cid ∧ slot.image_url ∉ used
  | [], slot => by
    intro h
    exact absurd h (by simp [pickPhotoFromSources])
  | src :: rest, slot => by
    intro h
    unfold pickPhotoFromSources at h
    by_cases h1 : pyStrip src.url = ""
    · rw [if_pos h1] at h
      exact pickPhotoFromSources_spec used cid cl rest slot h
    · rw [if_neg h1] at h
      cases hp : pickPhotoFromEntries used cid cl (src.name.getD cl)
          (src.entries.take 60) with
      | none =>
        simp only [hp] at h
        exact pickPhotoFromSources_spec used cid cl rest slot h
      | some s =>
        simp only [hp] at h
        have hs : s = slot := by simpa using h
        subst hs
        exact pickPhotoFromEntries_spec used cid cl (src.name.getD cl) _ s hp

/-- `photosStep` when the category finds no pick. -/
theorem photosStep_none (ps : String → List PhotoSource) (now : String)
    (st : List PhotoSlot × List String) (cat : String × String)
    (hp : pickPhotoFromSources st.2 cat.1 cat.2 (ps cat.1) = none) :
    photosStep ps now st cat = (st.1 ++ [placeholderSlot cat.1 cat.2 now], st.2) := by
  unfold photosStep
  rw [hp]

/-- `photosStep` when the category picks a slot. -/
theorem photosStep_some (ps : String → List PhotoSource) (now : String)
    (st : List PhotoSlot × List String) (cat : String × String)
    (slot : PhotoSlot)
    (hp : pickPhotoFromSources st.2 cat.1 cat.2 (ps cat.1) = some slot) :
    photosStep ps now st cat = (st.1 ++ [slot], st.2 ++ [slot.image_url]) := by
  unfold photosStep
  rw [hp]

/-- The category fold of `build_photos` appends exactly one slot per
category (in order) and keeps the used-image list duplicate-free. -/
theorem photosFold_spec (ps : String → List PhotoSource) (now : String) :
    ∀ (cats : List (String × String)) (st : List PhotoSlot × List String),
      ((cats.foldl (photosStep ps now) st).1.map (fun s => s.category_id)
        = st.1.map (fun s => s.category_id) ++ cats.map (fun c => c.1)) ∧
      (st.2.Nodup → (cats.foldl (photosStep ps now) st).2.Nodup)
  | [], st => by
    constructor
    · simp
    · intro h
      exact h
  | cat :: cats, st => by
    constructor
    · rw [List.foldl_cons]
      cases hp : pickPhotoFromSources st.2 cat.1 cat.2 (ps cat.1) with
      | none =>
        rw [photosStep_none ps now st cat hp]
        rw [(photosFold_spec ps now cats
          (st.1 ++ [placeholderSlot cat.1 cat.2 now], st.2)).1]
        simp [placeholderSlot]
      | some slot =>
        rw [photosStep_some ps now st cat slot hp]
        rw [(photosFold_spec ps now cats
          (st.1 ++ [slot], st.2 ++ [slot.image_url])).1]
        have hcid := (pickPhotoFromSources_spec st.2 cat.1 cat.2 (ps cat.1) slot hp).1
        simp [hcid]
    · intro hnd
      rw [List.foldl_cons]
      cases hp : pickPhotoFromSources st.2 cat.1 cat.2 (ps cat.1) with
      | none =>
        rw [photosStep_none ps now st cat hp]
        exact (photosFold_spec ps now cats
          (st.1 ++ [placeholderSlot cat.1 cat.2 now], st.2)).2 hnd
      | some slot =>
        rw [photosStep_some ps now st cat slot hp]
        apply (photosFold_spec ps now cats
          (st.1 ++ [slot], st.2 ++ [slot.image_url])).2
        refine ((List.perm_append_singleton _ _).nodup_iff).mpr ?_
        exact List.nodup_cons.mpr
          ⟨(pickPhotoFromSources_spec st.2 cat.1 cat.2 (ps cat.1) slot hp).2, hnd⟩

/-- Claim C8 (amended): every run emits exactly three photo slots, one per
category in the fixed order (a placeholder substitutes for a failed
category, never an omitted slot), and the successfully picked image URLs
are pairwise distinct.  The full no-shared-URL invariant fails only
through the placeholder, whose image URL is one fixed address (see the
counterexample). -/
theorem C8_photo_slots :
    (∀ (photo_sources : String → List PhotoSource) (now : String),
      (build_photos photo_sources now).1.map (fun s => s.category_id)
        = ["space", "animals", "landscapes"]) ∧
    (∀ (photo_sources : String → List PhotoSource) (now : String),
      (build_photos photo_sources now).2.Nodup) := by
  constructor
  · intro ps now
    have hmap := (photosFold_spec ps now photoCategories ([], [])).1
    have hlen : (photoCategories.foldl (photosStep ps now) ([], [])).1.length = 3 := by
      have := congrArg List.length hmap
      simpa using this
    have hb : (build_photos ps now).1
        = ((photoCategories.foldl (photosStep ps now) ([], [])).1).take 3 := rfl
    rw [hb, List.take_of_length_le (by rw [hlen]), hmap]
    rfl
  · intro ps now
    have hb : (build_photos ps now).2
        = (photoCategories.foldl (photosStep ps now) ([], [])).2 := rfl
    rw [hb]
    exact (photosFold_spec ps now photoCategories ([], [])).2 List.nodup_nil

/-- Claim C8 as stated is false of the code: with no configured photo
sources all three categories fall back to the placeholder, and all three
emitted slots share the same resolved image URL. -/
theorem C8_counterexample :
    ((build_photos (fun _ => []) "2024-01-01T00:00:00+00:00").1.map
      (fun s => s.image_url))
      = ["https://vcarciu.github.io/vesti-bune/og.jpg",
         "https://vcarciu.github.io/vesti-bune/og.jpg",
         "https://vcarciu.github.io/vesti-bune/og.jpg"] ∧
    ¬ ((build_photos (fun _ => []) "2024-01-01T00:00:00+00:00").1.map
      (fun s => s.image_url)).Nodup := by decide

/-- Claim C9 (amended): the daily pick is a pure function of the digest of
the UTC date string and the filtered corpus — every invocation with the
same date string and corpus selects the same joke, and the empty corpus
yields none.  The selection MAY change when the date changes but need not:
`digest(day) mod corpusSize` can coincide across days, and for a singleton
corpus the selection never changes (see the counterexample). -/
theorem C9_daily_pick :
    (∀ (digest : String → Nat) (day : String) (lines lines' : List String),
      jokes_of lines = jokes_of lines' →
      build_joke digest day lines = build_joke digest day lines') ∧
    (∀ (digest : String → Nat) (day j : String) (lines : List String),
      jokes_of lines = [j] →
      (build_joke digest day lines).map (fun r => r.text) = some j) ∧
    (∀ (digest : String → Nat) (day : String) (lines : List String),
      jokes_of lines = [] → build_joke digest day lines = none) := by
  refine ⟨?_, ?_, ?_⟩
  · intro digest day lines lines' h
    unfold build_joke
    rw [h]
  · intro digest day j lines h
    unfold build_joke
    rw [h]
    simp [Nat.mod_one]
  · intro digest day lines h
    unfold build_joke
    rw [h]

/-- Witness for C9: a concrete singleton corpus selects its only joke. -/
theorem C9_witness :
    (build_joke (fun _ => 0) "2024-01-01" ["Banc unic."]).map (fun r => r.text)
      = some "Banc unic." :=
  C9_daily_pick.2.1 (fun _ => 0) "2024-01-01" "Banc unic." ["Banc unic."] (by decide)

/-- Claim C9 as stated is false of the code: the selection need not change
when the UTC date changes — with a singleton corpus (and for any digest
values the date strings hash to), consecutive dates select the same joke,
because the selection is `digest(day) mod corpusSize` with no
anti-repetition rule. -/
theorem C9_counterexample :
    (build_joke (fun s => s.length) "2024-01-01" ["Banc unic."]).map
      (fun r => r.text) = some "Banc unic." ∧
    (build_joke (fun s => s.length) "2024-01-02" ["Banc unic."]).map
      (fun r => r.text) = some "Banc unic." := by decide

/-- Unpack the conjuncts of `goodChar`. -/
theorem goodChar_spec {d : Char} (h : goodChar d = true) :
    pyLower d = d ∧ nfkdChar d = [d] ∧ isCombiningMark d = false := by
  simp only [goodChar, Bool.and_eq_true, decide_eq_true_eq,
    Bool.not_eq_true'] at h
  exact ⟨h.1.1, h.1.2, h.2⟩

/-- Characters of the squashed list: the inserted space, or a non-space
character of the input. -/
theorem mem_squashAux :
    ∀ (b : Bool) (l : List Char) (d : Char), d ∈ squashAux b l →
      d = ' ' ∨ (d ∈ l ∧ pyIsSpace d = false)
  | b, [], d => by
    intro h
    exact absurd h (by cases b <;> simp [squashAux])
  | b, c :: cs, d => by
    intro h
    unfold squashAux at h
    by_cases hc : pyIsSpace c = true
    · rw [if_pos hc] at h
      cases b with
      | true =>
        rw [if_pos rfl] at h
        rcases mem_squashAux true cs d h with h' | ⟨h1, h2⟩
        · exact Or.inl h'
        · exact Or.inr ⟨List.mem_cons_of_mem c h1, h2⟩
      | false =>
        rw [if_neg (by simp)] at h
        rcases List.mem_cons.mp h with h' | h'
        · exact Or.inl h'
        · rcases mem_squashAux true cs d h' with h'' | ⟨h1, h2⟩
          · exact Or.inl h''
          · exact Or.inr ⟨List.mem_cons_of_mem c h1, h2⟩
    · rw [if_neg hc] at h
      rcases List.mem_cons.mp h with h' | h'
      · subst h'
        exact Or.inr ⟨List.mem_cons_self _ _, by simpa using hc⟩
      · rcases mem_squashAux false cs d h' with h'' | ⟨h1, h2⟩
        · exact Or.inl h''
        · exact Or.inr ⟨List.mem_cons_of_mem c h1, h2⟩

/-- `dropTrailWs` yields a prefix of its input. -/
theorem dropTrailWs_prefix : ∀ l : List Char, (dropTrailWs l).IsPrefix l
  | [] => List.prefix_refl _
  | c :: cs => by
    unfold dropTrailWs
    cases hr : dropTrailWs cs with
    | nil =>
      by_cases hc : pyIsSpace c = true
      · rw [if_pos hc]
        exact List.nil_prefix
      · rw [if_neg hc]
        exact ⟨cs, rfl⟩
    | cons r0 rs =>
      have := dropTrailWs_prefix cs
      rw [hr] at this
      rcases this with ⟨t, ht⟩
      refine ⟨t, ?_⟩
      rw [← ht]
      simp

/-- Members of `dropTrailWs` are members of the input. -/
theorem mem_dropTrailWs (l : List Char) (d : Char) (h : d ∈ dropTrailWs l) :
    d ∈ l := by
  rcases dropTrailWs_prefix l with ⟨t, ht⟩
  rw [← ht]
  exact List.mem_append_left _ h

/-- Members of `stripChars` are members of the input. -/
theorem mem_stripChars (l : List Char) (d : Char) (h : d ∈ stripChars l) :
    d ∈ l := by
  unfold stripChars at h
  have h1 := mem_dropTrailWs _ _ h
  exact List.dropWhile_sublist pyIsSpace |>.mem h1

/-- Whitespace surviving the squash is the single space. -/
theorem squashAux_wsOnly (b : Bool) (l : List Char) (d : Char)
    (h : d ∈ squashAux b l) (hsp : pyIsSpace d = true) : d = ' ' := by
  rcases mem_squashAux b l d h with h' | ⟨_, h2⟩
  · exact h'
  · rw [hsp] at h2
    cases h2

/-- With the in-run flag set, the squash output starts with a non-space
character (the run's space was already emitted). -/
theorem squashAux_true_head : ∀ l : List Char, headNotWs (squashAux true l)
  | [] => trivial
  | c :: cs => by
    unfold squashAux
    by_cases hc : pyIsSpace c = true
    · rw [if_pos hc, if_pos rfl]
      exact squashAux_true_head cs
    · rw [if_neg hc]
      simpa [headNotWs] using hc

/-- Cons preserves `noAdjWs` when the tail starts with a non-space. -/
theorem noAdjWs_cons_of_head (c : Char) (l : List Char)
    (h1 : headNotWs l) (h2 : noAdjWs l) : noAdjWs (c :: l) := by
  cases l with
  | nil => trivial
  | cons d t =>
    refine ⟨?_, h2⟩
    intro hx
    rw [h1] at hx
    exact absurd hx.2 (by simp)

/-- Cons of a non-space character preserves `noAdjWs`. -/
theorem noAdjWs_cons_nonspace (c : Char) (l : List Char)
    (hc : pyIsSpace c = false) (h2 : noAdjWs l) : noAdjWs (c :: l) := by
  cases l with
  | nil => trivial
  | cons d t =>
    refine ⟨?_, h2⟩
    intro hx
    rw [hc] at hx
    exact absurd hx.1 (by simp)

/-- The tail of a `noAdjWs` list is `noAdjWs`. -/
theorem noAdjWs_tail (c : Char) (l : List Char) (h : noAdjWs (c :: l)) :
    noAdjWs l := by
  cases l with
  | nil => trivial
  | cons d t => exact h.2

/-- The squash output has no adjacent whitespace. -/
theorem squashAux_noAdj : ∀ (b : Bool) (l : List Char), noAdjWs (squashAux b l)
  | b, [] => by cases b <;> trivial
  | b, c :: cs => by
    unfold squashAux
    by_cases hc : pyIsSpace c = true
    · rw [if_pos hc]
      cases b with
      | true =>
        rw [if_pos rfl]
        exact squashAux_noAdj true cs
      | false =>
        rw [if_neg (by simp)]
        exact noAdjWs_cons_of_head ' ' _ (squashAux_true_head cs)
          (squashAux_noAdj true cs)
    · rw [if_neg hc]
      exact noAdjWs_cons_nonspace c _ (by simpa using hc) (squashAux_noAdj false cs)

/-- When the head is not whitespace the two squash flags agree. -/
theorem squashAux_flag (l : List Char) (h : headNotWs l) :
    squashAux true l = squashAux false l := by
  cases l with
  | nil => rfl
  | cons c cs =>
    have hc : pyIsSpace c = false := by simpa [headNotWs] using h
    unfold squashAux
    rw [hc]
    simp

/-- A list whose whitespace is single spaces, non-adjacent, is a fixed
point of the squash. -/
theorem squashAux_fixed :
    ∀ l : List Char, (∀ d ∈ l, pyIsSpace d = true → d = ' ') → noAdjWs l →
      squashAux false l = l
  | [], _, _ => rfl
  | c :: cs, hws, hadj => by
    unfold squashAux
    by_cases hc : pyIsSpace c = true
    · rw [if_pos hc]
      have hc' : c = ' ' := hws c (List.mem_cons_self _ _) hc
      have hhead : headNotWs cs := by
        cases cs with
        | nil => trivial
        | cons d t =>
          rcases hadj with ⟨hpair, _⟩
          by_cases hd : pyIsSpace d = true
          · exact absurd ⟨hc, hd⟩ hpair
          · simpa [headNotWs] using hd
      rw [squashAux_flag cs hhead,
        squashAux_fixed cs (fun d hd => hws d (List.mem_cons_of_mem c hd))
          (noAdjWs_tail c cs hadj), hc']
      simp
    · rw [if_neg hc,
        squashAux_fixed cs (fun d hd => hws d (List.mem_cons_of_mem c hd))
          (noAdjWs_tail c cs hadj)]

/-- The defining equation of `dropTrailWs` on a cons cell. -/
theorem dropTrailWs_cons_eq (c : Char) (cs : List Char) :
    dropTrailWs (c :: cs)
      = match dropTrailWs cs with
        | [] => if pyIsSpace c = true then [] else [c]
        | r => c :: r := rfl

/-- `dropTrailWs` on a cons whose tail strips to nothing, space head. -/
theorem dropTrailWs_cons_nil (c : Char) (cs : List Char)
    (hr : dropTrailWs cs = []) (hc : pyIsSpace c = true) :
    dropTrailWs (c :: cs) = [] := by
  rw [dropTrailWs_cons_eq, hr]
  simp [hc]

/-- `dropTrailWs` on a cons whose tail strips to nothing, non-space head. -/
theorem dropTrailWs_cons_keep (c : Char) (cs : List Char)
    (hr : dropTrailWs cs = []) (hc : pyIsSpace c = false) :
    dropTrailWs (c :: cs) = [c] := by
  rw [dropTrailWs_cons_eq, hr]
  simp [hc]

/-- `dropTrailWs` on a cons whose tail strips to a cons. -/
theorem dropTrailWs_cons_cons (c : Char) (cs : List Char) (r0 : Char)
    (rs : List Char) (hr : dropTrailWs cs = r0 :: rs) :
    dropTrailWs (c :: cs) = c :: r0 :: rs := by
  rw [dropTrailWs_cons_eq, hr]

/-- `dropTrailWs` is idempotent. -/
theorem dropTrailWs_idem : ∀ l : List Char, dropTrailWs (dropTrailWs l) = dropTrailWs l
  | [] => rfl
  | c :: cs => by
    cases hr : dropTrailWs cs with
    | nil =>
      by_cases hc : pyIsSpace c = true
      · rw [dropTrailWs_cons_nil c cs hr hc]
        rfl
      · have hc' : pyIsSpace c = false := by simpa using hc
        rw [dropTrailWs_cons_keep c cs hr hc',
          dropTrailWs_cons_keep c [] rfl hc']
    | cons r0 rs =>
      have hidem := dropTrailWs_idem cs
      rw [hr] at hidem
      rw [dropTrailWs_cons_cons c cs r0 rs hr,
        dropTrailWs_cons_cons c (r0 :: rs) r0 rs hidem]

/-- The leading-whitespace drop leaves a non-space head. -/
theorem dropWhile_ws_head : ∀ l : List Char, headNotWs (l.dropWhile pyIsSpace)
  | [] => trivial
  | c :: cs => by
    rw [List.dropWhile_cons]
    by_cases hc : pyIsSpace c = true
    · rw [if_pos hc]
      exact dropWhile_ws_head cs
    · rw [if_neg hc]
      simpa [headNotWs] using hc

/-- `dropTrailWs` preserves a non-space head. -/
theorem dropTrailWs_head (l : List Char) (h : headNotWs l) :
    headNotWs (dropTrailWs l) := by
  cases l with
  | nil => trivial
  | cons c cs =>
    cases hr : dropTrailWs cs with
    | nil =>
      have hc : pyIsSpace c = false := by simpa [headNotWs] using h
      rw [dropTrailWs_cons_keep c cs hr hc]
      simpa [headNotWs] using hc
    | cons r0 rs =>
      rw [dropTrailWs_cons_cons c cs r0 rs hr]
      exact h

/-- Dropping leading whitespace from a list with non-space head is the
identity. -/
theorem dropWhile_ws_of_head (l : List Char) (h : headNotWs l) :
    l.dropWhile pyIsSpace = l := by
  cases l with
  | nil => rfl
  | cons c cs =>
    rw [List.dropWhile_cons, if_neg (by simpa [headNotWs] using h)]

/-- `dropWhile` preserves `noAdjWs`. -/
theorem noAdjWs_dropWhile : ∀ l : List Char, noAdjWs l →
    noAdjWs (l.dropWhile pyIsSpace)
  | [], _ => trivial
  | c :: cs, h => by
    rw [List.dropWhile_cons]
    by_cases hc : pyIsSpace c = true
    · rw [if_pos hc]
      exact noAdjWs_dropWhile cs (noAdjWs_tail c cs h)
    · rw [if_neg hc]
      exact h

/-- A prefix of a `noAdjWs` list is `noAdjWs`. -/
theorem noAdjWs_of_prefix : ∀ (l t : List Char), noAdjWs (l ++ t) → noAdjWs l
  | [], _, _ => trivial
  | [_], _, _ => trivial
  | a :: b :: l, t, h => by
    rcases h with ⟨hpair, hrest⟩
    exact ⟨hpair, noAdjWs_of_prefix (b :: l) t hrest⟩

/-- `dropTrailWs` preserves `noAdjWs`. -/
theorem noAdjWs_dropTrailWs (l : List Char) (h : noAdjWs l) :
    noAdjWs (dropTrailWs l) := by
  rcases dropTrailWs_prefix l with ⟨t, ht⟩
  rw [← ht] at h
  exact noAdjWs_of_prefix _ t h

/-- Mapping `pyLower` over lower-stable characters is the identity. -/
theorem map_pyLower_id : ∀ l : List Char, (∀ d ∈ l, pyLower d = d) →
    l.map pyLower = l
  | [], _ => rfl
  | c :: cs, h => by
    rw [List.map_cons, h c (List.mem_cons_self _ _),
      map_pyLower_id cs (fun d hd => h d (List.mem_cons_of_mem c hd))]

/-- Flat-mapping `nfkdChar` over decomposition-free characters is the
identity. -/
theorem flatMap_nfkd_id : ∀ l : List Char, (∀ d ∈ l, nfkdChar d = [d]) →
    l.flatMap nfkdChar = l
  | [], _ => rfl
  | c :: cs, h => by
    rw [List.flatMap_cons, h c (List.mem_cons_self _ _),
      flatMap_nfkd_id cs (fun d hd => h d (List.mem_cons_of_mem c hd))]
    rfl

/-- The per-character normalization core is the identity on `goodChar`
lists. -/
theorem normalize_core_of_good (z : List Char)
    (hz : ∀ d ∈ z, goodChar d = true) :
    ((z.map pyLower).flatMap nfkdChar).filter (fun c => !(isCombiningMark c)) = z := by
  rw [map_pyLower_id z (fun d hd => (goodChar_spec (hz d hd)).1),
    flatMap_nfkd_id z (fun d hd => (goodChar_spec (hz d hd)).2.1)]
  rw [List.filter_eq_self]
  intro d hd
  rw [(goodChar_spec (hz d hd)).2.2]
  rfl

/-- Squash-then-strip output is a fixed point of squash-then-strip. -/
theorem stripSquash_fixed (y : List Char) :
    stripChars (squashSpaces (stripChars (squashSpaces y)))
      = stripChars (squashSpaces y) := by
  have hws : ∀ d ∈ stripChars (squashSpaces y), pyIsSpace d = true → d = ' ' := by
    intro d hd hsp
    exact squashAux_wsOnly false y d (mem_stripChars _ _ hd) hsp
  have hadj : noAdjWs (stripChars (squashSpaces y)) := by
    unfold stripChars
    exact noAdjWs_dropTrailWs _
      (noAdjWs_dropWhile _ (squashAux_noAdj false y))
  have hhead : headNotWs (stripChars (squashSpaces y)) := by
    unfold stripChars
    exact dropTrailWs_head _ (dropWhile_ws_head _)
  have hsq : squashSpaces (stripChars (squashSpaces y))
      = stripChars (squashSpaces y) := squashAux_fixed _ hws hadj
  rw [hsq]
  unfold stripChars
  rw [dropWhile_ws_of_head _ (dropTrailWs_head _ (dropWhile_ws_head _)),
    dropTrailWs_idem]

/-- Claim C10 (amended): `normalize_text` is idempotent on every string
whose characters lowercase and decompose into combining marks and
stable characters (`stableStr`) — which covers all ASCII and all
Romanian-diacritic text; it is not idempotent in general (see the
counterexample `№`, whose compatibility decomposition contains an
uppercase letter).  It is diacritic-insensitive
(`normalize_text "Șoc" = normalize_text "soc"`), and empty input yields
the empty string with no failure mode. -/
theorem C10_normalize :
    (∀ s : String, stableStr s = true →
      normalize_text (normalize_text s) = normalize_text s) ∧
    normalize_text "Șoc" = normalize_text "soc" ∧
    normalize_text "" = "" := by
  refine ⟨?_, by decide, by decide⟩
  intro s hs
  have hy : ∀ d ∈ ((s.data.map pyLower).flatMap nfkdChar).filter
      (fun c => !(isCombiningMark c)), goodChar d = true := by
    intro d hd
    rw [List.mem_filter] at hd
    rcases hd with ⟨hdf, hdc⟩
    rw [List.mem_flatMap] at hdf
    rcases hdf with ⟨c, hc, hdn⟩
    rw [List.mem_map] at hc
    rcases hc with ⟨c0, hc0, rfl⟩
    have h1 := List.all_eq_true.mp hs c0 hc0
    have h2 := List.all_eq_true.mp h1 d hdn
    rcases Bool.or_eq_true_iff.mp h2 with hcomb | hgood
    · rw [hcomb] at hdc
      cases hdc
    · exact hgood
  have hzg : ∀ d ∈ stripChars (squashSpaces
      (((s.data.map pyLower).flatMap nfkdChar).filter
        (fun c => !(isCombiningMark c)))), goodChar d = true := by
    intro d hd
    rcases mem_squashAux false _ d (mem_stripChars _ _ hd) with h | ⟨h, _⟩
    · subst h
      decide
    · exact hy d h
  have hcore := normalize_core_of_good _ hzg
  have hfix := stripSquash_fixed (((s.data.map pyLower).flatMap nfkdChar).filter
    (fun c => !(isCombiningMark c)))
  show String.mk (stripChars (squashSpaces
    ((((normalize_text s).data.map pyLower).flatMap nfkdChar).filter
      (fun c => !(isCombiningMark c))))) = normalize_text s
  have hdata : (normalize_text s).data = stripChars (squashSpaces
      (((s.data.map pyLower).flatMap nfkdChar).filter
        (fun c => !(isCombiningMark c)))) := rfl
  rw [hdata, hcore, hfix]
  rfl

/-- Witness for C10: idempotence applied at the diacritic string `"Șoc"`. -/
theorem C10_witness :
    normalize_text (normalize_text "Șoc") = normalize_text "Șoc" :=
  C10_normalize.1 "Șoc" (by decide)

/-- Claim C10 as stated is false of the code: `normalize_text` is not
idempotent for every input — `№` lowercases to itself and NFKD-decomposes
to `"No"`, whose capital `N` is lowered only by a second pass. -/
theorem C10_counterexample :
    normalize_text (normalize_text "№") ≠ normalize_text "№" := by decide
